import Mathlib

/-!
Shallow embedding of `src/gotobrainfuck.py`, an interpreter for an
eight-instruction brainfuck variant in which the bracket loop is replaced
by a data-driven goto (`^` jumps to the absolute instruction address equal
to the current cell's value).

Python integers are modelled as `Int` (with explicit `% 256` / `% capacity`
where the source masks), byte cells and the tape pointer as `Nat`, the
byte streams as `List Nat`, and the Python exceptions raised by the source
(`SyntaxError`, `TimeoutError`, `IndexError`, `NotImplementedError`) as an
error type `PyError`.  The unbounded `while` loop of `Code.exec` is
embedded as a single-step function `Code.step` plus a gas-indexed iterator
`Code.run`; `Code.run tokens n ctx pt = .running ctx' pt'` means the loop
performed `n` iterations (each of which dispatched one instruction) and is
still going.
-/

namespace GotoBF

/-- The eight token classes of the source (subclasses of `Token`). -/
inductive Token where
  | ExitToken
  | GoToToken
  | PlusToken
  | MinusToken
  | ForwardToken
  | BackwardToken
  | PrintToken
  | ReadToken
  deriving DecidableEq, Repr

/-- The Python exceptions the source can raise, kept distinct. -/
inductive PyError where
  | SyntaxError
  | TimeoutError
  | IndexError
  | NotImplementedError
  deriving DecidableEq, Repr

/-- The mutable interpreter state of class `Context`: the tape
(`self.buffer`, a `bytearray`), the tape cursor (`self.ptr`), the byte
streams behind `input_file` / `output_file`, and the fuel counter
`self.num_cycles_left` (a signed Python int). -/
structure Context where
  buffer : List Nat
  ptr : Nat
  input : List Nat
  output : List Nat
  num_cycles_left : Int
  deriving DecidableEq, Repr

/-- `Context.__init__`: `buffer = bytearray([0]) * buffer_size`, `ptr = 0`,
fresh streams, `num_cycles_left = num_cycles_limit`. -/
def Context.init (buffer_size : Nat) (num_cycles_limit : Int)
    (input : List Nat) : Context :=
  { buffer := List.replicate buffer_size 0
    ptr := 0
    input := input
    output := []
    num_cycles_left := num_cycles_limit }

/-- The `current_value` property getter: `self.buffer[self.ptr]`. -/
def Context.current_value (ctx : Context) : Nat :=
  ctx.buffer.getD ctx.ptr 0

/-- The `current_value` property setter:
`self.buffer[self.ptr] = value & 255`.  For any Python int `v`,
`v & 255` equals the nonnegative residue `v % 256`, which is `Int.emod`
in Lean. -/
def Context.set_current_value (ctx : Context) (value : Int) : Context :=
  { ctx with buffer := ctx.buffer.set ctx.ptr ((value % 256).toNat) }

/-- The `pointer` property setter: `self.ptr = value % len(self.buffer)`
(Python `%` on a positive modulus yields the nonnegative residue, which is
`Int.emod` in Lean). -/
def Context.set_pointer (ctx : Context) (value : Int) : Context :=
  { ctx with ptr := (value % (ctx.buffer.length : Int)).toNat }

/-- The virtual `Token.exec(context)` dispatch: each subclass either
returns the signed control signal together with the updated context, or
raises.  The base class (and hence `ExitToken`) raises
`NotImplementedError`; the loop in `Code.exec` never calls it on an
`ExitToken`. -/
def Token.exec : Token → Context → Except PyError (Context × Int)
  | .ExitToken, _ => .error .NotImplementedError
  | .GoToToken, ctx => .ok (ctx, (ctx.current_value : Int))
  | .PlusToken, ctx =>
      .ok (ctx.set_current_value ((ctx.current_value : Int) + 1), -1)
  | .MinusToken, ctx =>
      .ok (ctx.set_current_value ((ctx.current_value : Int) - 1), -1)
  | .ForwardToken, ctx =>
      .ok (ctx.set_pointer ((ctx.ptr : Int) + 1), -1)
  | .BackwardToken, ctx =>
      .ok (ctx.set_pointer ((ctx.ptr : Int) - 1), -1)
  | .PrintToken, ctx =>
      .ok ({ ctx with output := ctx.output ++ [ctx.current_value] }, -1)
  | .ReadToken, ctx =>
      match ctx.input with
      | [] => .ok (ctx.set_current_value 0, -1)
      | b :: rest =>
          .ok (Context.set_current_value { ctx with input := rest } (b : Int), -1)

/-- `Context.exec`: the per-instruction fuel gate.  Raises `TimeoutError`
when `num_cycles_left == 0`, otherwise decrements the counter and
dispatches the token. -/
def Context.exec (ctx : Context) (token : Token) :
    Except PyError (Context × Int) :=
  if ctx.num_cycles_left = 0 then .error .TimeoutError
  else Token.exec token { ctx with num_cycles_left := ctx.num_cycles_left - 1 }

/-- Python tuple indexing `self.tokens[i]` with a possibly signed index:
a negative index in `[-len, 0)` wraps to the end, anything else out of
`[0, len)` raises `IndexError` (modelled as `none`). -/
def tupleGet (l : List Token) (i : Int) : Option Token :=
  if 0 ≤ i then l[i.toNat]?
  else if 0 ≤ i + (l.length : Int) then l[(i + (l.length : Int)).toNat]?
  else none

/-- One iteration of the `while` loop in `Code.exec`: fetch
`self.tokens[code_pt]` (raising `IndexError` if out of range), stop
successfully if it is an `ExitToken`, otherwise dispatch it through
`Context.exec` and compute the next address
(`code_pt + 1 if pt < 0 else pt`). -/
inductive StepResult where
  | halted (ctx : Context)
  | failed (e : PyError) (ctx : Context)
  | running (ctx : Context) (code_pt : Int)
  deriving DecidableEq, Repr

def Code.step (tokens : List Token) (ctx : Context) (code_pt : Int) :
    StepResult :=
  match tupleGet tokens code_pt with
  | none => .failed .IndexError ctx
  | some .ExitToken => .halted ctx
  | some t =>
      match Context.exec ctx t with
      | .error e => .failed e ctx
      | .ok (ctx2, pt) => .running ctx2 (if pt < 0 then code_pt + 1 else pt)

/-- `Code.exec`'s loop, iterated for at most `n` steps (gas-indexed
embedding of the unbounded `while`): `running` means the loop has not yet
halted or raised after `n` iterations. -/
def Code.run (tokens : List Token) : Nat → Context → Int → StepResult
  | 0, ctx, code_pt => .running ctx code_pt
  | n + 1, ctx, code_pt =>
      match Code.step tokens ctx code_pt with
      | .running ctx2 pt2 => Code.run tokens n ctx2 pt2
      | r => r

/-- The byte-to-token table of `Code.parse` (`.`=46, `,`=44, `+`=43,
`-`=45, `>`=62, `<`=60, `^`=94, `;`=59); any other byte is `none`
(the `else: raise SyntaxError` branch). -/
def charToToken (b : Nat) : Option Token :=
  if b = 46 then some .PrintToken
  else if b = 44 then some .ReadToken
  else if b = 43 then some .PlusToken
  else if b = 45 then some .MinusToken
  else if b = 62 then some .ForwardToken
  else if b = 60 then some .BackwardToken
  else if b = 94 then some .GoToToken
  else if b = 59 then some .ExitToken
  else none

/-- `Code.parse`: consume the source bytes left to right, mapping each
through the table and aborting with `SyntaxError` at the first
unrecognized byte. -/
def Code.parse : List Nat → Except PyError (List Token)
  | [] => .ok []
  | b :: rest =>
      match charToToken b with
      | none => .error .SyntaxError
      | some t =>
          match Code.parse rest with
          | .error e => .error e
          | .ok ts => .ok (t :: ts)

/-- Well-formedness of the tape: every cell of the `bytearray` holds a
value below 256 (true of `Context.init` and preserved by every write,
since the `current_value` setter masks with `& 255`). -/
def WF (ctx : Context) : Prop :=
  ∀ c ∈ ctx.buffer, c < 256

/-- The state part of one `Token.exec` dispatch (the context after the
side effect, discarding the control signal). -/
def Token.execCtx (t : Token) (ctx : Context) : Context :=
  match Token.exec t ctx with
  | .ok (ctx2, _) => ctx2
  | .error _ => ctx

/-- Apply a sequence of instruction side effects to the context, left to
right. -/
def execSeq : List Token → Context → Context
  | [], ctx => ctx
  | t :: ts, ctx => execSeq ts (Token.execCtx t ctx)

/-- Net increment minus decrement count of an instruction sequence. -/
def netDelta : List Token → Int
  | [] => 0
  | Token.PlusToken :: ts => netDelta ts + 1
  | Token.MinusToken :: ts => netDelta ts - 1
  | _ :: ts => netDelta ts

/-! ## Helper lemmas -/

lemma Context.set_current_value_fields (ctx : Context) (v : Int) :
    (ctx.set_current_value v).ptr = ctx.ptr ∧
    (ctx.set_current_value v).input = ctx.input ∧
    (ctx.set_current_value v).output = ctx.output ∧
    (ctx.set_current_value v).num_cycles_left = ctx.num_cycles_left ∧
    (ctx.set_current_value v).buffer.length = ctx.buffer.length := by
  simp [Context.set_current_value]

lemma WF_init (cap : Nat) (fuel : Int) (inp : List Nat) :
    WF (Context.init cap fuel inp) := by
  intro c hc
  simp [Context.init] at hc
  omega

lemma current_value_lt_of_WF {ctx : Context} (h : WF ctx) :
    ctx.current_value < 256 := by
  unfold Context.current_value
  rw [List.getD_eq_getElem?_getD]
  rcases hg : ctx.buffer[ctx.ptr]? with _ | c
  · simp
  · simpa using h c (List.getElem?_mem hg)

lemma WF_set_current_value {ctx : Context} (h : WF ctx) (v : Int) :
    WF (ctx.set_current_value v) := by
  intro c hc
  simp only [Context.set_current_value] at hc
  rcases List.mem_or_eq_of_mem_set hc with hmem | rfl
  · exact h c hmem
  · omega

/-- Every successful `Token.exec` leaves the fuel counter untouched and
preserves tape well-formedness. -/
lemma Token.exec_ok {t : Token} {ctx ctx2 : Context} {pt : Int}
    (h : Token.exec t ctx = .ok (ctx2, pt)) :
    ctx2.num_cycles_left = ctx.num_cycles_left ∧ (WF ctx → WF ctx2) := by
  cases t <;>
    simp only [Token.exec] at h
  case ExitToken => cases h
  case GoToToken =>
    obtain ⟨rfl, rfl⟩ : ctx = ctx2 ∧ (ctx.current_value : Int) = pt := by
      simpa using h
    exact ⟨rfl, fun hw => hw⟩
  case PlusToken =>
    obtain ⟨rfl, rfl⟩ : ctx.set_current_value ((ctx.current_value : Int) + 1) = ctx2 ∧ (-1 : Int) = pt := by
      simpa using h
    exact ⟨(ctx.set_current_value_fields _).2.2.2.1, fun hw => WF_set_current_value hw _⟩
  case MinusToken =>
    obtain ⟨rfl, rfl⟩ : ctx.set_current_value ((ctx.current_value : Int) - 1) = ctx2 ∧ (-1 : Int) = pt := by
      simpa using h
    exact ⟨(ctx.set_current_value_fields _).2.2.2.1, fun hw => WF_set_current_value hw _⟩
  case ForwardToken =>
    obtain ⟨rfl, rfl⟩ : ctx.set_pointer ((ctx.ptr : Int) + 1) = ctx2 ∧ (-1 : Int) = pt := by
      simpa using h
    exact ⟨rfl, fun hw c hc => hw c hc⟩
  case BackwardToken =>
    obtain ⟨rfl, rfl⟩ : ctx.set_pointer ((ctx.ptr : Int) - 1) = ctx2 ∧ (-1 : Int) = pt := by
      simpa using h
    exact ⟨rfl, fun hw c hc => hw c hc⟩
  case PrintToken =>
    obtain ⟨rfl, rfl⟩ : ({ ctx with output := ctx.output ++ [ctx.current_value] } : Context) = ctx2 ∧ (-1 : Int) = pt := by
      simpa using h
    exact ⟨rfl, fun hw c hc => hw c hc⟩
  case ReadToken =>
    rcases hi : ctx.input with _ | ⟨b, rest⟩ <;> rw [hi] at h
    · obtain ⟨rfl, rfl⟩ : ctx.set_current_value 0 = ctx2 ∧ (-1 : Int) = pt := by
        simpa using h
      exact ⟨(ctx.set_current_value_fields _).2.2.2.1, fun hw => WF_set_current_value hw _⟩
    · obtain ⟨rfl, rfl⟩ : Context.set_current_value { ctx with input := rest } (b : Int) = ctx2 ∧ (-1 : Int) = pt := by
        simpa using h
      refine ⟨(Context.set_current_value_fields _ _).2.2.2.1, fun hw => ?_⟩
      exact WF_set_current_value (fun c hc => hw c hc) _

/-- Anatomy of a loop iteration that keeps running: exactly one unit of
fuel was consumed (so the counter was nonzero at the check), the next
address is nonnegative whenever the current one is, and tape
well-formedness is preserved. -/
lemma Code.step_running {tokens : List Token} {ctx ctx2 : Context}
    {code_pt pt2 : Int}
    (h : Code.step tokens ctx code_pt = .running ctx2 pt2) :
    ctx2.num_cycles_left = ctx.num_cycles_left - 1 ∧
    ctx.num_cycles_left ≠ 0 ∧
    (0 ≤ code_pt → 0 ≤ pt2) ∧
    (WF ctx → WF ctx2) := by
  unfold Code.step at h
  split at h
  · cases h
  · cases h
  rename_i t hne hfetch
  rcases hex : Context.exec ctx t with e | ⟨ctx3, pt⟩ <;> rw [hex] at h
  · cases h
  simp only [StepResult.running.injEq] at h
  obtain ⟨rfl, rfl⟩ := h
  unfold Context.exec at hex
  split at hex
  · cases hex
  rename_i hfuel
  obtain ⟨hf, hwf⟩ := Token.exec_ok hex
  simp only at hf
  refine ⟨hf, hfuel, fun hcp => ?_, fun hw => hwf (fun c hc => hw c hc)⟩
  split <;> omega

/-- Anatomy of `n` loop iterations that keep running: the fuel counter
went down by exactly `n` (so a nonnegative initial counter bounds the
number of dispatched instructions), the address stays nonnegative, and
tape well-formedness is preserved. -/
lemma Code.run_running {tokens : List Token} {n : Nat} {ctx ctx2 : Context}
    {code_pt pt2 : Int}
    (h : Code.run tokens n ctx code_pt = .running ctx2 pt2) :
    ctx2.num_cycles_left = ctx.num_cycles_left - n ∧
    (0 ≤ code_pt → 0 ≤ pt2) ∧
    (WF ctx → WF ctx2) ∧
    (0 ≤ ctx.num_cycles_left → (n : Int) ≤ ctx.num_cycles_left) := by
  induction n generalizing ctx code_pt with
  | zero =>
      simp only [Code.run, StepResult.running.injEq] at h
      obtain ⟨rfl, rfl⟩ := h
      exact ⟨by simp, fun h0 => h0, fun hw => hw, fun h0 => by simpa using h0⟩
  | succ n ih =>
      unfold Code.run at h
      split at h
      · rename_i ctx3 pt3 heq
        obtain ⟨hf, hnz, hpt, hwf⟩ := Code.step_running heq
        obtain ⟨ihf, ihpt, ihwf, ihb⟩ := ih h
        refine ⟨by push_cast; omega, fun hcp => ihpt (hpt hcp),
          fun hw => ihwf (hwf hw), fun hb => ?_⟩
        have : (n : Int) ≤ ctx3.num_cycles_left := ihb (by omega)
        push_cast
        omega
      · rename_i r hnr
        exact absurd h (hnr ctx2 pt2)

/-- An `ExitToken` at the current address stops the loop at once, before
any dispatch, leaving the context untouched. -/
lemma Code.step_exit {tokens : List Token} {ctx : Context} {code_pt : Int}
    (h : tupleGet tokens code_pt = some Token.ExitToken) :
    Code.step tokens ctx code_pt = .halted ctx := by
  unfold Code.step
  rw [h]

/-- With the counter at zero and a non-`ExitToken` fetched, `Context.exec`
raises `TimeoutError` before dispatching the token. -/
lemma Code.step_fuel_zero {tokens : List Token} {ctx : Context}
    {code_pt : Int} {t : Token}
    (hfuel : ctx.num_cycles_left = 0) (hfetch : tupleGet tokens code_pt = some t)
    (hne : t ≠ Token.ExitToken) :
    Code.step tokens ctx code_pt = .failed .TimeoutError ctx := by
  unfold Code.step
  rw [hfetch]
  cases t
  case ExitToken => exact absurd rfl hne
  all_goals simp [Context.exec, hfuel]

/-- Dispatching a `GoToToken` only consumes fuel and transfers control to
the address equal to the current cell's value. -/
lemma Code.step_goto {tokens : List Token} {ctx : Context} {code_pt : Int}
    (hfetch : tupleGet tokens code_pt = some Token.GoToToken)
    (hfuel : ctx.num_cycles_left ≠ 0) :
    Code.step tokens ctx code_pt =
      .running { ctx with num_cycles_left := ctx.num_cycles_left - 1 }
        (ctx.current_value : Int) := by
  unfold Code.step
  rw [hfetch]
  simp only [Context.exec, if_neg hfuel, Token.exec]
  split
  · rename_i hlt
    exact absurd hlt (by omega)
  · rfl

/-! ## Claim theorems -/

/-- C1: in every reachable interpreter state whose instruction address
lies outside `[0, len(tokens))` (whether produced by a `Goto` or by the
normal advance past the last instruction), the next loop iteration fails
with the out-of-range fetch error (`IndexError` from the tuple fetch),
which is a distinct catchable failure, different from the fuel-exhaustion
error (`TimeoutError`) and from `SyntaxError`. -/
theorem C1_invalid_jump_distinct_failure {cap : Nat} {fuel : Int}
    {inp : List Nat} {tokens : List Token} {n : Nat} {ctx2 : Context} {pt2 : Int}
    (hrun : Code.run tokens n (Context.init cap fuel inp) 0 = .running ctx2 pt2)
    (hout : ¬ (0 ≤ pt2 ∧ pt2 < (tokens.length : Int))) :
    Code.step tokens ctx2 pt2 = .failed .IndexError ctx2 ∧
    (PyError.IndexError ≠ PyError.TimeoutError ∧
     PyError.IndexError ≠ PyError.SyntaxError) := by
  have hnn : 0 ≤ pt2 := (Code.run_running hrun).2.1 le_rfl
  have hfetch : tupleGet tokens pt2 = none := by
    unfold tupleGet
    rw [if_pos hnn]
    exact List.getElem?_eq_none_iff.mpr (by omega)
  unfold Code.step
  rw [hfetch]
  exact ⟨rfl, by decide, by decide⟩

/-- C1 witness: program `"+"`; after one dispatched instruction the
address has advanced past the end, and the next iteration fails with
`IndexError`. -/
theorem C1_witness :
    Code.step [Token.PlusToken]
      { buffer := [1, 0, 0, 0], ptr := 0, input := [], output := [],
        num_cycles_left := 8 } 1 =
      .failed .IndexError
        { buffer := [1, 0, 0, 0], ptr := 0, input := [], output := [],
          num_cycles_left := 8 } ∧
    (PyError.IndexError ≠ PyError.TimeoutError ∧
     PyError.IndexError ≠ PyError.SyntaxError) :=
  @C1_invalid_jump_distinct_failure 4 9 [] [Token.PlusToken] 1
    { buffer := [1, 0, 0, 0], ptr := 0, input := [], output := [],
      num_cycles_left := 8 } 1 rfl (by decide)

/-- C2 (amended): the fuel check happens after the fetch and after the
`ExitToken` check, not before the fetch: with the counter at zero, a
non-`Halt` opcode at the current address makes the run fail with the
fuel-exhaustion error before that opcode is dispatched, but a `Halt` at
the current address terminates the run successfully even with zero fuel
remaining. -/
theorem C2_fuel_check_after_fetch {tokens : List Token} {ctx : Context}
    {code_pt : Int} {t : Token}
    (hfuel : ctx.num_cycles_left = 0)
    (hfetch : tupleGet tokens code_pt = some t) :
    (t ≠ Token.ExitToken →
      Code.step tokens ctx code_pt = .failed .TimeoutError ctx) ∧
    (t = Token.ExitToken → Code.step tokens ctx code_pt = .halted ctx) :=
  ⟨fun hne => Code.step_fuel_zero hfuel hfetch hne,
   fun he => Code.step_exit (he ▸ hfetch)⟩

/-- C2 counterexample: program `";"` run with fuel limit `0` terminates
successfully (`halted`), it does not fail with the fuel-exhaustion
error, contradicting the claim that exhausted fuel is detected before
the opcode at the current address is fetched. -/
theorem C2_counterexample :
    Code.run [Token.ExitToken] 1 (Context.init 4 0 []) 0 =
      .halted (Context.init 4 0 []) ∧
    Code.run [Token.ExitToken] 1 (Context.init 4 0 []) 0 ≠
      .failed .TimeoutError (Context.init 4 0 []) :=
  ⟨rfl, by decide⟩

/-- C2 witness: program `"+"` with fuel `0` fails with `TimeoutError`
before the `PlusToken` is dispatched, and would halt instead were the
fetched token an `ExitToken`. -/
theorem C2_witness :
    (Token.PlusToken ≠ Token.ExitToken →
      Code.step [Token.PlusToken] (Context.init 4 0 []) 0 =
        .failed .TimeoutError (Context.init 4 0 [])) ∧
    (Token.PlusToken = Token.ExitToken →
      Code.step [Token.PlusToken] (Context.init 4 0 []) 0 =
        .halted (Context.init 4 0 [])) :=
  @C2_fuel_check_after_fetch [Token.PlusToken] (Context.init 4 0 []) 0
    Token.PlusToken rfl rfl

/-- C3 (amended): for every *nonnegative* initial fuel value F the
counter decreases by exactly 1 per dispatched instruction, at most F
instructions are dispatched, and once the counter reaches 0 the next
iteration that fetches a non-`Halt` opcode aborts with the
fuel-exhaustion error (the check `num_cycles_left == 0` fires exactly
when one more decrement would make the counter negative); for a negative
initial value the equality check never fires, so the claim's
`max(F, 0)` bound fails. -/
theorem C3_fuel_strictly_decreases {tokens : List Token} {ctx ctx2 : Context}
    {code_pt pt2 : Int} {n : Nat} {t : Token}
    (hF : 0 ≤ ctx.num_cycles_left)
    (hrun : Code.run tokens n ctx code_pt = .running ctx2 pt2) :
    ctx2.num_cycles_left = ctx.num_cycles_left - n ∧
    (n : Int) ≤ ctx.num_cycles_left ∧
    (ctx2.num_cycles_left = 0 → tupleGet tokens pt2 = some t →
      t ≠ Token.ExitToken →
      Code.step tokens ctx2 pt2 = .failed .TimeoutError ctx2) := by
  obtain ⟨h1, _, _, h4⟩ := Code.run_running hrun
  exact ⟨h1, h4 hF, fun hz hf hne => Code.step_fuel_zero hz hf hne⟩

/-- C3 counterexample: with the (signed) initial fuel value `-1` the
claim allows at most `max(-1, 0) = 0` dispatched instructions, but the
interpreter dispatches the `GoToToken` anyway (the counter falls to
`-2` and the loop is still running), and the first iteration does not
abort with the fuel-exhaustion error. -/
theorem C3_counterexample :
    Code.run [Token.GoToToken, Token.ExitToken] 1 (Context.init 4 (-1) []) 0 =
      .running { Context.init 4 (-1) [] with num_cycles_left := -2 } 0 ∧
    Code.step [Token.GoToToken, Token.ExitToken] (Context.init 4 (-1) []) 0 ≠
      .failed .TimeoutError (Context.init 4 (-1) []) :=
  ⟨rfl, by decide⟩

/-- C3 witness: program `"^;"` with fuel `2`: after 2 dispatched
instructions the counter is `2 - 2 = 0` and the next iteration (which
fetches the `GoToToken` again) aborts with the fuel-exhaustion error. -/
theorem C3_witness :
    ({ Context.init 4 2 [] with num_cycles_left := 0 } : Context).num_cycles_left =
      (Context.init 4 2 []).num_cycles_left - (2 : Nat) ∧
    ((2 : Nat) : Int) ≤ (Context.init 4 2 []).num_cycles_left ∧
    (({ Context.init 4 2 [] with num_cycles_left := 0 } : Context).num_cycles_left = 0 →
      tupleGet [Token.GoToToken, Token.ExitToken] 0 = some Token.GoToToken →
      Token.GoToToken ≠ Token.ExitToken →
      Code.step [Token.GoToToken, Token.ExitToken]
        { Context.init 4 2 [] with num_cycles_left := 0 } 0 =
        .failed .TimeoutError { Context.init 4 2 [] with num_cycles_left := 0 }) :=
  @C3_fuel_strictly_decreases [Token.GoToToken, Token.ExitToken]
    (Context.init 4 2 []) { Context.init 4 2 [] with num_cycles_left := 0 }
    0 0 2 Token.GoToToken (by decide) rfl

/-- C4: whenever the opcode fetched at the current address is an
`ExitToken` (`Halt`), the loop terminates successfully before executing
it: the resulting context is *identical* to the one before the step, so
no fuel is consumed, no output is written, and tape, cursor and counter
are untouched. -/
theorem C4_halt_stops_before_execution {tokens : List Token} {ctx : Context}
    {code_pt : Int}
    (h : tupleGet tokens code_pt = some Token.ExitToken) :
    Code.step tokens ctx code_pt = .halted ctx :=
  Code.step_exit h

/-- C4 witness: program `";"` halts at once with the context (including
its fuel counter `7`) unchanged. -/
theorem C4_witness :
    Code.step [Token.ExitToken] (Context.init 4 7 []) 0 =
      .halted (Context.init 4 7 []) :=
  @C4_halt_stops_before_execution [Token.ExitToken] (Context.init 4 7 []) 0 rfl

/-- C5: in any state with fuel remaining, dispatching a `GoToToken`
transfers control to the absolute address exactly equal to the current
cell's value at the moment of dispatch (whatever the history), while
dispatching any of the other six executable tokens transfers control to
the current address plus one. -/
theorem C5_goto_and_advance_control_transfer {tokens : List Token}
    {ctx : Context} {code_pt : Int} {t : Token}
    (hfetch : tupleGet tokens code_pt = some t)
    (hfuel : ctx.num_cycles_left ≠ 0) :
    (t = Token.GoToToken →
      Code.step tokens ctx code_pt =
        .running { ctx with num_cycles_left := ctx.num_cycles_left - 1 }
          (ctx.current_value : Int)) ∧
    (t ≠ Token.GoToToken → t ≠ Token.ExitToken →
      ∃ ctx2, Code.step tokens ctx code_pt = .running ctx2 (code_pt + 1)) := by
  constructor
  · rintro rfl
    exact Code.step_goto hfetch hfuel
  · intro hg he
    obtain ⟨buf, p, inp, out, fu⟩ := ctx
    unfold Code.step
    rw [hfetch]
    cases t
    case ExitToken => exact absurd rfl he
    case GoToToken => exact absurd rfl hg
    case ReadToken =>
      rcases inp with _ | ⟨b, rest⟩ <;>
        simp [Context.exec, Token.exec, hfuel]
    all_goals
      simp [Context.exec, Token.exec, hfuel]

/-- C5 witness: with the cell value at `3`, `GoToToken` jumps to address
`3` while `PlusToken` advances from address `0` to `1`. -/
theorem C5_witness :
    (Token.GoToToken = Token.GoToToken →
      Code.step [Token.GoToToken]
        { buffer := [3, 0], ptr := 0, input := [], output := [], num_cycles_left := 9 } 0 =
        .running
          { buffer := [3, 0], ptr := 0, input := [], output := [], num_cycles_left := 8 } 3) ∧
    (Token.GoToToken ≠ Token.GoToToken → Token.GoToToken ≠ Token.ExitToken →
      ∃ ctx2, Code.step [Token.GoToToken]
        { buffer := [3, 0], ptr := 0, input := [], output := [], num_cycles_left := 9 } 0 =
        .running ctx2 (0 + 1)) :=
  @C5_goto_and_advance_control_transfer [Token.GoToToken]
    { buffer := [3, 0], ptr := 0, input := [], output := [], num_cycles_left := 9 } 0
    Token.GoToToken rfl (by decide)

/-- C10: every reachable instruction address is nonnegative, and from any
reachable state a dispatched `GoToToken` jumps to the current cell's
value, which is at most 255 (cells are bytes); hence the fetch never
sees a negative index and addresses above 255 are only reachable by
sequential advancement. -/
theorem C10_address_nonneg_jump_le_255 {cap : Nat} {fuel : Int}
    {inp : List Nat} {tokens : List Token} {n : Nat} {ctx2 : Context} {pt2 : Int}
    (hrun : Code.run tokens n (Context.init cap fuel inp) 0 = .running ctx2 pt2) :
    0 ≤ pt2 ∧
    (tupleGet tokens pt2 = some Token.GoToToken → ctx2.num_cycles_left ≠ 0 →
      Code.step tokens ctx2 pt2 =
        .running { ctx2 with num_cycles_left := ctx2.num_cycles_left - 1 }
          (ctx2.current_value : Int) ∧
      (ctx2.current_value : Int) ≤ 255) := by
  obtain ⟨_, hpt, hwf, _⟩ := Code.run_running hrun
  refine ⟨hpt le_rfl, fun hfetch hfuel => ?_⟩
  have hcv := current_value_lt_of_WF (hwf (WF_init cap fuel inp))
  exact ⟨Code.step_goto hfetch hfuel, by omega⟩

/-- C10 witness: the initial state of program `"^;"` is reachable in 0
steps; its address 0 is nonnegative and the pending `GoToToken` jumps to
the current cell's value `0 ≤ 255`. -/
theorem C10_witness :
    (0 : Int) ≤ 0 ∧
    (tupleGet [Token.GoToToken, Token.ExitToken] 0 = some Token.GoToToken →
      (Context.init 4 5 []).num_cycles_left ≠ 0 →
      Code.step [Token.GoToToken, Token.ExitToken] (Context.init 4 5 []) 0 =
        .running { Context.init 4 5 [] with
          num_cycles_left := (Context.init 4 5 []).num_cycles_left - 1 }
          ((Context.init 4 5 []).current_value : Int) ∧
      ((Context.init 4 5 []).current_value : Int) ≤ 255) :=
  @C10_address_nonneg_jump_le_255 4 5 [] [Token.GoToToken, Token.ExitToken] 0
    (Context.init 4 5 []) 0 rfl

lemma current_value_set {ctx : Context} (hp : ctx.ptr < ctx.buffer.length)
    (v : Int) :
    (ctx.set_current_value v).current_value = (v % 256).toNat := by
  simp only [Context.set_current_value, Context.current_value,
    List.getD_eq_getElem?_getD]
  rw [List.getElem?_set_self hp]
  rfl

/-- C6: cells wrap modulo 256: for every sequence of increments and
decrements applied to a well-formed cell, the observed value is the
initial value plus the net delta, reduced modulo 256 to `[0, 255]` (the
setter masks with `& 255`), never an error. -/
theorem C6_cell_wraps_mod_256 {l : List Token} {ctx : Context}
    (hl : ∀ t ∈ l, t = Token.PlusToken ∨ t = Token.MinusToken)
    (hp : ctx.ptr < ctx.buffer.length)
    (hv : ctx.current_value < 256) :
    ((execSeq l ctx).current_value : Int) =
      ((ctx.current_value : Int) + netDelta l) % 256 ∧
    (execSeq l ctx).current_value < 256 := by
  induction l generalizing ctx with
  | nil =>
      refine ⟨?_, hv⟩
      simp only [execSeq, netDelta, add_zero]
      exact (Int.emod_eq_of_lt (by omega) (by omega)).symm
  | cons t ts ih =>
      have hts : ∀ u ∈ ts, u = Token.PlusToken ∨ u = Token.MinusToken :=
        fun u hu => hl u (List.mem_cons_of_mem _ hu)
      rcases hl t (List.mem_cons_self _ _) with rfl | rfl
      · have hcase : Token.execCtx Token.PlusToken ctx =
            ctx.set_current_value ((ctx.current_value : Int) + 1) := rfl
        have hp2 : (Token.execCtx Token.PlusToken ctx).ptr <
            (Token.execCtx Token.PlusToken ctx).buffer.length := by
          rw [hcase]
          simpa [Context.set_current_value] using hp
        have hcv2 : (Token.execCtx Token.PlusToken ctx).current_value =
            ((((ctx.current_value : Int) + 1)) % 256).toNat := by
          rw [hcase]
          exact current_value_set hp _
        obtain ⟨ih1, ih2⟩ := ih hts hp2 (by omega)
        refine ⟨?_, by simpa [execSeq] using ih2⟩
        have : execSeq (Token.PlusToken :: ts) ctx =
            execSeq ts (Token.execCtx Token.PlusToken ctx) := rfl
        rw [this, ih1, hcv2, netDelta]
        have hnn : (0 : Int) ≤ ((ctx.current_value : Int) + 1) % 256 := by omega
        rw [Int.toNat_of_nonneg hnn]
        omega
      · have hcase : Token.execCtx Token.MinusToken ctx =
            ctx.set_current_value ((ctx.current_value : Int) - 1) := rfl
        have hp2 : (Token.execCtx Token.MinusToken ctx).ptr <
            (Token.execCtx Token.MinusToken ctx).buffer.length := by
          rw [hcase]
          simpa [Context.set_current_value] using hp
        have hcv2 : (Token.execCtx Token.MinusToken ctx).current_value =
            ((((ctx.current_value : Int) - 1)) % 256).toNat := by
          rw [hcase]
          exact current_value_set hp _
        obtain ⟨ih1, ih2⟩ := ih hts hp2 (by omega)
        refine ⟨?_, by simpa [execSeq] using ih2⟩
        have : execSeq (Token.MinusToken :: ts) ctx =
            execSeq ts (Token.execCtx Token.MinusToken ctx) := rfl
        rw [this, ih1, hcv2, netDelta]
        have hnn : (0 : Int) ≤ ((ctx.current_value : Int) - 1) % 256 := by omega
        rw [Int.toNat_of_nonneg hnn]
        omega

/-- C6 witness: two increments and one decrement on a fresh cell leave
the value `(0 + 1) mod 256 = 1`, still inside `[0, 255]`. -/
theorem C6_witness :
    ((execSeq [Token.PlusToken, Token.PlusToken, Token.MinusToken]
        (Context.init 2 9 [])).current_value : Int) =
      (((Context.init 2 9 []).current_value : Int) +
        netDelta [Token.PlusToken, Token.PlusToken, Token.MinusToken]) % 256 ∧
    (execSeq [Token.PlusToken, Token.PlusToken, Token.MinusToken]
        (Context.init 2 9 [])).current_value < 256 :=
  @C6_cell_wraps_mod_256 [Token.PlusToken, Token.PlusToken, Token.MinusToken]
    (Context.init 2 9 []) (by decide) (by decide) (by decide)

lemma set_pointer_lt {ctx : Context} (hcap : 0 < ctx.buffer.length) (v : Int) :
    (ctx.set_pointer v).ptr < (ctx.set_pointer v).buffer.length := by
  simp only [Context.set_pointer]
  have h1 : 0 ≤ v % (ctx.buffer.length : Int) :=
    Int.emod_nonneg v (by omega)
  have h2 : v % (ctx.buffer.length : Int) < (ctx.buffer.length : Int) :=
    Int.emod_lt_of_pos v (by omega)
  omega

lemma forward_wraps {ctx : Context} (hcap : 0 < ctx.buffer.length)
    (h : ctx.ptr = ctx.buffer.length - 1) :
    (Token.execCtx Token.ForwardToken ctx).ptr = 0 := by
  have hcase : Token.execCtx Token.ForwardToken ctx =
      ctx.set_pointer ((ctx.ptr : Int) + 1) := rfl
  rw [hcase]
  simp only [Context.set_pointer]
  have he : (ctx.ptr : Int) + 1 = (ctx.buffer.length : Int) := by omega
  rw [he, Int.emod_self]
  rfl

lemma backward_wraps {ctx : Context} (hcap : 0 < ctx.buffer.length)
    (h : ctx.ptr = 0) :
    (Token.execCtx Token.BackwardToken ctx).ptr = ctx.buffer.length - 1 := by
  have hcase : Token.execCtx Token.BackwardToken ctx =
      ctx.set_pointer ((ctx.ptr : Int) - 1) := rfl
  rw [hcase]
  simp only [Context.set_pointer]
  have he : (ctx.ptr : Int) - 1 = -1 := by omega
  rw [he]
  have h2 : (-1 : Int) % (ctx.buffer.length : Int) =
      (ctx.buffer.length : Int) - 1 := by
    have e : (-1 : Int) =
        ((ctx.buffer.length : Int) - 1) + (ctx.buffer.length : Int) * (-1) := by
      ring
    rw [e, Int.add_mul_emod_self_left]
    exact Int.emod_eq_of_lt (by omega) (by omega)
  rw [h2]
  omega

lemma execSeq_ptr_lt {l : List Token} {ctx : Context}
    (hl : ∀ t ∈ l, t = Token.ForwardToken ∨ t = Token.BackwardToken)
    (hcap : 0 < ctx.buffer.length) (hp : ctx.ptr < ctx.buffer.length) :
    (execSeq l ctx).ptr < (execSeq l ctx).buffer.length ∧
    (execSeq l ctx).buffer.length = ctx.buffer.length := by
  induction l generalizing ctx with
  | nil => exact ⟨hp, rfl⟩
  | cons t ts ih =>
      have hts : ∀ u ∈ ts, u = Token.ForwardToken ∨ u = Token.BackwardToken :=
        fun u hu => hl u (List.mem_cons_of_mem _ hu)
      rcases hl t (List.mem_cons_self _ _) with rfl | rfl
      · have hcase : Token.execCtx Token.ForwardToken ctx =
            ctx.set_pointer ((ctx.ptr : Int) + 1) := rfl
        have hcap2 : 0 < (Token.execCtx Token.ForwardToken ctx).buffer.length := by
          rw [hcase]; exact hcap
        obtain ⟨ih1, ih2⟩ := ih hts hcap2 (by rw [hcase]; exact set_pointer_lt hcap _)
        refine ⟨ih1, ?_⟩
        rw [show execSeq (Token.ForwardToken :: ts) ctx =
          execSeq ts (Token.execCtx Token.ForwardToken ctx) from rfl, ih2, hcase]
        rfl
      · have hcase : Token.execCtx Token.BackwardToken ctx =
            ctx.set_pointer ((ctx.ptr : Int) - 1) := rfl
        have hcap2 : 0 < (Token.execCtx Token.BackwardToken ctx).buffer.length := by
          rw [hcase]; exact hcap
        obtain ⟨ih1, ih2⟩ := ih hts hcap2 (by rw [hcase]; exact set_pointer_lt hcap _)
        refine ⟨ih1, ?_⟩
        rw [show execSeq (Token.BackwardToken :: ts) ctx =
          execSeq ts (Token.execCtx Token.BackwardToken ctx) from rfl, ih2, hcase]
        rfl

/-- C7: the cursor always stays in `[0, capacity)` under any sequence of
`StepForward`/`StepBackward` (movement wraps modulo the capacity, which
never changes), stepping forward from `capacity - 1` yields `0`, and
stepping backward from `0` yields `capacity - 1`. -/
theorem C7_cursor_wraps_mod_capacity {l : List Token} {ctx : Context}
    (hl : ∀ t ∈ l, t = Token.ForwardToken ∨ t = Token.BackwardToken)
    (hcap : 0 < ctx.buffer.length) (hp : ctx.ptr < ctx.buffer.length) :
    (execSeq l ctx).ptr < (execSeq l ctx).buffer.length ∧
    (execSeq l ctx).buffer.length = ctx.buffer.length ∧
    (ctx.ptr = ctx.buffer.length - 1 →
      (Token.execCtx Token.ForwardToken ctx).ptr = 0) ∧
    (ctx.ptr = 0 →
      (Token.execCtx Token.BackwardToken ctx).ptr = ctx.buffer.length - 1) := by
  obtain ⟨h1, h2⟩ := execSeq_ptr_lt hl hcap hp
  exact ⟨h1, h2, forward_wraps hcap, backward_wraps hcap⟩

/-- C7 witness: on a capacity-1 tape, a forward step then a backward step
keep the cursor in range, and both wrap cases hold at cursor 0. -/
theorem C7_witness :
    (execSeq [Token.ForwardToken, Token.BackwardToken]
        (Context.init 1 9 [])).ptr <
      (execSeq [Token.ForwardToken, Token.BackwardToken]
        (Context.init 1 9 [])).buffer.length ∧
    (execSeq [Token.ForwardToken, Token.BackwardToken]
        (Context.init 1 9 [])).buffer.length =
      (Context.init 1 9 []).buffer.length ∧
    ((Context.init 1 9 []).ptr = (Context.init 1 9 []).buffer.length - 1 →
      (Token.execCtx Token.ForwardToken (Context.init 1 9 [])).ptr = 0) ∧
    ((Context.init 1 9 []).ptr = 0 →
      (Token.execCtx Token.BackwardToken (Context.init 1 9 [])).ptr =
        (Context.init 1 9 []).buffer.length - 1) :=
  @C7_cursor_wraps_mod_capacity [Token.ForwardToken, Token.BackwardToken]
    (Context.init 1 9 []) (by decide) (by decide) (by decide)

lemma parse_bad_byte (pre suffix : List Nat) (bad : Nat)
    (hpre : ∀ b ∈ pre, (charToToken b).isSome)
    (hbad : charToToken bad = none) :
    Code.parse (pre ++ bad :: suffix) = .error .SyntaxError := by
  induction pre with
  | nil => simp only [List.nil_append, Code.parse, hbad]
  | cons x xs ih =>
      have hx := hpre x (List.mem_cons_self _ _)
      rcases hox : charToToken x with _ | t
      · rw [hox] at hx; cases hx
      · simp only [List.cons_append, Code.parse, hox]
        rw [List.append_eq, ih (fun b hb => hpre b (List.mem_cons_of_mem _ hb))]

lemma parse_all_valid (bs : List Nat)
    (hbs : ∀ b ∈ bs, (charToToken b).isSome) :
    Code.parse bs = .ok (bs.map fun b => (charToToken b).getD Token.ExitToken) := by
  induction bs with
  | nil => rfl
  | cons x xs ih =>
      have hx := hbs x (List.mem_cons_self _ _)
      rcases hox : charToToken x with _ | t
      · rw [hox] at hx; cases hx
      · simp only [Code.parse, hox, List.map_cons]
        rw [ih (fun b hb => hbs b (List.mem_cons_of_mem _ hb))]
        rfl

/-- C8: the tokenizer maps bytes to opcodes exactly by the fixed
eight-entry table, preserving order and length (`map`), and it fails with
`SyntaxError` exactly when some byte is outside the table: the first
offending byte aborts the whole parse, whatever bytes follow it (the
result does not depend on `suffix`), so no partial program is produced. -/
theorem C8_tokenizer_table_and_syntax_error (pre suffix : List Nat)
    (bad : Nat) (bs : List Nat)
    (hpre : ∀ b ∈ pre, (charToToken b).isSome)
    (hbad : charToToken bad = none)
    (hbs : ∀ b ∈ bs, (charToToken b).isSome) :
    Code.parse (pre ++ bad :: suffix) = .error .SyntaxError ∧
    Code.parse bs = .ok (bs.map fun b => (charToToken b).getD Token.ExitToken) :=
  ⟨parse_bad_byte pre suffix bad hpre hbad, parse_all_valid bs hbs⟩

/-- C8 witness: `"+@;"` fails with `SyntaxError` at the `@`, and the
eight table bytes `".,+-><^;"` parse to the eight opcodes in order. -/
theorem C8_witness :
    Code.parse ([43] ++ 64 :: [59]) = .error .SyntaxError ∧
    Code.parse [46, 44, 43, 45, 62, 60, 94, 59] =
      .ok ([46, 44, 43, 45, 62, 60, 94, 59].map fun b =>
        (charToToken b).getD Token.ExitToken) :=
  C8_tokenizer_table_and_syntax_error [43] [59] 64
    [46, 44, 43, 45, 62, 60, 94, 59] (by decide) (by decide) (by decide)

lemma goto_halt_run (k : Nat) : ∀ ctx : Context, ctx.current_value = 0 →
    ctx.num_cycles_left = (k : Int) →
    Code.run [Token.GoToToken, Token.ExitToken] k ctx 0 =
      .running { ctx with num_cycles_left := 0 } 0 := by
  induction k with
  | zero =>
      intro ctx hv hf
      obtain ⟨buf, p, inp, out, fu⟩ := ctx
      simp only [Nat.cast_zero] at hf
      subst hf
      rfl
  | succ k ih =>
      intro ctx hv hf
      have hstep := @Code.step_goto [Token.GoToToken, Token.ExitToken] ctx 0
        rfl (by omega)
      unfold Code.run
      rw [hstep, hv]
      exact ih _ hv (by show ctx.num_cycles_left - 1 = (k : Int); omega)

lemma goto_halt_run_fail (k : Nat) : ∀ ctx : Context, ctx.current_value = 0 →
    ctx.num_cycles_left = (k : Int) →
    Code.run [Token.GoToToken, Token.ExitToken] (k + 1) ctx 0 =
      .failed .TimeoutError { ctx with num_cycles_left := 0 } := by
  induction k with
  | zero =>
      intro ctx hv hf
      obtain ⟨buf, p, inp, out, fu⟩ := ctx
      simp only [Nat.cast_zero] at hf
      subst hf
      rfl
  | succ k ih =>
      intro ctx hv hf
      have hstep := @Code.step_goto [Token.GoToToken, Token.ExitToken] ctx 0
        rfl (by omega)
      unfold Code.run
      rw [hstep, hv]
      exact ih _ hv (by show ctx.num_cycles_left - 1 = (k : Int); omega)

/-- C9: the program with source bytes `"^;"` parses to
`[GoToToken, ExitToken]`; run with fuel limit 1000 it keeps jumping to
address 0 (the cell value is 0), is still at address 0 after 1000
dispatched instructions with the counter exactly at 0, fails with the
fuel-exhaustion error on the next iteration, and has written no output
bytes. -/
theorem C9_goto_self_loop_exhausts_fuel :
    Code.parse [94, 59] = .ok [Token.GoToToken, Token.ExitToken] ∧
    Code.run [Token.GoToToken, Token.ExitToken] 1000
        (Context.init 65536 1000 []) 0 =
      .running { Context.init 65536 1000 [] with num_cycles_left := 0 } 0 ∧
    Code.run [Token.GoToToken, Token.ExitToken] 1001
        (Context.init 65536 1000 []) 0 =
      .failed .TimeoutError
        { Context.init 65536 1000 [] with num_cycles_left := 0 } ∧
    ({ Context.init 65536 1000 [] with num_cycles_left := 0 } : Context).output =
      [] :=
  ⟨rfl, goto_halt_run 1000 (Context.init 65536 1000 []) rfl rfl,
   goto_halt_run_fail 1000 (Context.init 65536 1000 []) rfl rfl, rfl⟩

end GotoBF
